import Mathlib

/-!
Shallow embedding of the Elo rating core of `garner-ultimate-ladder`
(`src/elo_core.py`): the expectation model, the margin-of-victory model,
the match ordering, the recompute engine and the standings formatter,
together with theorems settling the specification claims.

Python dictionaries are modelled as insertion-ordered association lists
(`Dict`), floats as real numbers, and the one runtime fault the fold can
raise (`ZeroDivisionError` on an empty team) as an `Except` error.
-/

/-- Association-list model of a Python `dict` with string keys:
lookup scans from the front (keys produced by the engine are unique). -/
abbrev Dict (α : Type) := List (String × α)

/-- Model of `d.get(k)` returning `None` when absent. -/
def dlookup {α : Type} : Dict α → String → Option α
  | [], _ => none
  | (k', v) :: t, k => if k' = k then some v else dlookup t k

/-- Model of `d.get(k, v0)`. -/
def dget {α : Type} (d : Dict α) (k : String) (v0 : α) : α :=
  (dlookup d k).getD v0

/-- Model of `k in d`. -/
def dmem {α : Type} (d : Dict α) (k : String) : Bool :=
  (dlookup d k).isSome

/-- Model of `d[k] = v`: update in place when the key is present,
append at the end otherwise (Python dicts keep insertion order). -/
def dset {α : Type} : Dict α → String → α → Dict α
  | [], k, v => [(k, v)]
  | (k', v') :: t, k, v => if k' = k then (k, v) :: t else (k', v') :: dset t k v

/-- Which side forfeited: the Python field is `Optional[Literal["A","B"]]`. -/
inductive Side : Type
  | A : Side
  | B : Side
deriving DecidableEq, Repr

/-- Model of the `GameRow` dataclass of `elo_core.py`. -/
structure GameRow : Type where
  date : String
  winners : List String
  losers : List String
  score_w : Int
  score_l : Int
  forfeit_against : Option Side
  _seq : Int
deriving DecidableEq, Repr

instance : Inhabited GameRow := ⟨⟨"", [], [], 0, 0, none, 0⟩⟩

/-- Model of the `EloEngine` constructor configuration. -/
structure EloEngine : Type where
  starting_rating : ℝ
  K : ℝ
  forfeit_MOV : ℝ
  round_display : Bool

/-- The default configuration `EloEngine()` of the source. -/
noncomputable def defaultEngine : EloEngine := ⟨1200, 30, 0.75, true⟩

/-- Model of `expected_score`: `1.0 / (1.0 + 10.0 ** ((RB - RA) / 400.0))`. -/
noncomputable def expected_score (RA RB : ℝ) : ℝ :=
  1 / (1 + (10 : ℝ) ^ ((RB - RA) / 400))

/-- Model of `mov_factor`: zero on equal scores, otherwise
`math.log(diff + 1) * (2.2 / (abs(RA - RB) / 400.0 + 2.2))` with
`diff = abs(int(score_a) - int(score_b))`. -/
noncomputable def mov_factor (RA RB : ℝ) (score_a score_b : Int) : ℝ :=
  let diff := (score_a - score_b).natAbs
  if diff = 0 then 0
  else Real.log ((diff : ℝ) + 1) * (2.2 / (|RA - RB| / 400 + 2.2))

/-! ### Date parsing and match ordering

`date_key` in the source is
`datetime.fromisoformat(d).timestamp()`, falling back to
`datetime.strptime(d, "%Y-%m-%d").timestamp()`, falling back to
`float("inf")`.  The two library parsers are modelled below as executable
functions on strings; the returned key is an integer "timestamp"
(a strictly monotone second count; the constant epoch offset and local
timezone shift of CPython's `timestamp()` are irrelevant to ordering),
with `⊤ : WithTop ℤ` standing for `float("inf")`. -/

/-- Split a character list on a separator character. -/
def splitOnChar (c : Char) : List Char → List (List Char)
  | [] => [[]]
  | x :: xs =>
    let r := splitOnChar c xs
    if x = c then [] :: r
    else
      match r with
      | [] => [[x]]
      | h :: t => (x :: h) :: t

/-- All characters of a nonempty block are ASCII digits. -/
def allDigits (cs : List Char) : Bool :=
  cs.length != 0 && cs.all Char.isDigit

/-- Numeric value of a digit block. -/
def digitsToNat (cs : List Char) : Nat :=
  cs.foldl (fun a c => 10 * a + (c.toNat - 48)) 0

/-- Number of days in a month of the proleptic Gregorian calendar. -/
def daysInMonth (y m : Nat) : Nat :=
  if m = 2 then (if (y % 4 = 0 && y % 100 != 0) || y % 400 = 0 then 29 else 28)
  else if m = 4 || m = 6 || m = 9 || m = 11 then 30 else 31

/-- Validity of a year-month-day triple as `datetime` accepts it. -/
def validYMD (y m d : Nat) : Bool :=
  1 ≤ y && y ≤ 9999 && 1 ≤ m && m ≤ 12 && 1 ≤ d && d ≤ daysInMonth y m

/-- Days elapsed before month `m` of year `y`. -/
def monthOffset (y m : Nat) : Nat :=
  (List.range (m - 1)).foldl (fun a i => a + daysInMonth y (i + 1)) 0

/-- Strictly monotone day number of a calendar date. -/
def dayNumber (y m d : Nat) : Nat :=
  365 * (y - 1) + (y - 1) / 4 - (y - 1) / 100 + (y - 1) / 400 + monthOffset y m + d

/-- Second count of a calendar date plus a time of day, the monotone
abstraction of `datetime(...).timestamp()`. -/
def dateSeconds (y m d : Nat) (t : ℤ) : ℤ :=
  (dayNumber y m d : ℤ) * 86400 + t

/-- Parse a `YYYY-MM-DD` block with fixed two-digit month and day widths,
as `datetime.fromisoformat` requires. -/
def parseIsoDate (cs : List Char) : Option (Nat × Nat × Nat) :=
  match splitOnChar '-' cs with
  | [ys, ms, ds] =>
    if allDigits ys && allDigits ms && allDigits ds &&
        ys.length = 4 && ms.length = 2 && ds.length = 2 then
      let y := digitsToNat ys
      let m := digitsToNat ms
      let d := digitsToNat ds
      if validYMD y m d then some (y, m, d) else none
    else none
  | _ => none

/-- Parse an `HH:MM` or `HH:MM:SS` time-of-day block into seconds. -/
def parseIsoTime (cs : List Char) : Option ℤ :=
  match splitOnChar ':' cs with
  | [hs, ms] =>
    if allDigits hs && allDigits ms && hs.length = 2 && ms.length = 2 then
      let h := digitsToNat hs
      let m := digitsToNat ms
      if h ≤ 23 && m ≤ 59 then some ((h : ℤ) * 3600 + (m : ℤ) * 60) else none
    else none
  | [hs, ms, ss] =>
    if allDigits hs && allDigits ms && allDigits ss &&
        hs.length = 2 && ms.length = 2 && ss.length = 2 then
      let h := digitsToNat hs
      let m := digitsToNat ms
      let sec := digitsToNat ss
      if h ≤ 23 && m ≤ 59 && sec ≤ 59 then
        some ((h : ℤ) * 3600 + (m : ℤ) * 60 + (sec : ℤ))
      else none
    else none
  | _ => none

/-- Model of `datetime.fromisoformat(d).timestamp()`: a date, optionally
followed by a separator (`T` or a space) and a time of day. -/
def fromisoformat (s : String) : Option ℤ :=
  let cs := s.toList
  if cs.length = 10 then
    (parseIsoDate cs).map fun yd => dateSeconds yd.1 yd.2.1 yd.2.2 0
  else
    match cs.drop 10 with
    | sep :: rest =>
      if sep = 'T' || sep = ' ' then
        match parseIsoDate (cs.take 10), parseIsoTime rest with
        | some yd, some t => some (dateSeconds yd.1 yd.2.1 yd.2.2 t)
        | _, _ => none
      else none
    | [] => none

/-- Model of `datetime.strptime(d, "%Y-%m-%d").timestamp()`: `strptime`
accepts one to four year digits and one or two month and day digits. -/
def strptimeYMD (s : String) : Option ℤ :=
  match splitOnChar '-' s.toList with
  | [ys, ms, ds] =>
    if allDigits ys && allDigits ms && allDigits ds &&
        ys.length ≤ 4 && ms.length ≤ 2 && ds.length ≤ 2 then
      let y := digitsToNat ys
      let m := digitsToNat ms
      let d := digitsToNat ds
      if validYMD y m d then some (dateSeconds y m d 0) else none
    else none
  | _ => none

/-- Model of the nested `date_key` of `recompute`: first parse,
fallback parse, and `float("inf")` (here `⊤`) when both fail. -/
def date_key (d : String) : WithTop ℤ :=
  match fromisoformat d with
  | some t => (t : WithTop ℤ)
  | none =>
    match strptimeYMD d with
    | some t => (t : WithTop ℤ)
    | none => ⊤

/-- The sort key `(date_key(g.date), g._seq)` used by `recompute`. -/
def sortKey (g : GameRow) : WithTop ℤ × Int :=
  (date_key g.date, g._seq)

/-- Lexicographic comparison by `(date_key(g.date), g._seq)`, the order of
`sorted(games, key=lambda g: (date_key(g.date), g._seq))`. -/
def leKey (a b : GameRow) : Prop :=
  date_key a.date < date_key b.date ∨
    (date_key a.date = date_key b.date ∧ a._seq ≤ b._seq)

instance : DecidableRel leKey := fun a b =>
  inferInstanceAs (Decidable (_ ∨ _))

instance : IsTotal GameRow leKey := by
  constructor
  intro a b
  rcases lt_trichotomy (date_key a.date) (date_key b.date) with h | h | h
  · exact Or.inl (Or.inl h)
  · rcases le_total a._seq b._seq with hs | hs
    · exact Or.inl (Or.inr ⟨h, hs⟩)
    · exact Or.inr (Or.inr ⟨h.symm, hs⟩)
  · exact Or.inr (Or.inl h)

instance : IsTrans GameRow leKey := by
  constructor
  intro a b c hab hbc
  rcases hab with h1 | ⟨h1, s1⟩
  · rcases hbc with h2 | ⟨h2, _⟩
    · exact Or.inl (h1.trans h2)
    · exact Or.inl (h2 ▸ h1)
  · rcases hbc with h2 | ⟨h2, s2⟩
    · exact Or.inl (h1 ▸ h2)
    · exact Or.inr ⟨h1.trans h2, s1.trans s2⟩

/-- Model of `sorted(games, key=lambda g: (date_key(g.date), g._seq))`:
a stable sort by `leKey`. -/
def sortRows (games : List GameRow) : List GameRow :=
  games.insertionSort leKey

/-! ### The recompute engine -/

/-- Model of the per-player tally dict
`{"games":0,"wins":0,"losses":0,"ties":0}`. -/
structure Record : Type where
  games : Nat
  wins : Nat
  losses : Nat
  ties : Nat
deriving DecidableEq, Repr

/-- The all-zero tally a player is seeded with on first encounter. -/
def Record.zero : Record := ⟨0, 0, 0, 0⟩

/-- The pair of mutable dicts `ratings` and `records` threaded through
the fold of `recompute`. -/
structure EloState : Type where
  ratings : Dict ℝ
  records : Dict Record

/-- The one runtime fault the fold can raise: Python's
`ZeroDivisionError` from `sum(...)/len(...)` on an empty team. -/
inductive EloError : Type
  | zeroDivisionError : EloError
deriving DecidableEq, Repr

/-- Model of the nested `ensure`: seed a player at the starting rating
and at zero counts when absent. -/
def ensure (R0 : ℝ) (st : EloState) (n : String) : EloState :=
  ⟨if dmem st.ratings n then st.ratings else dset st.ratings n R0,
   if dmem st.records n then st.records else dset st.records n Record.zero⟩

/-- Model of `sum(r(n) for n in team)/len(team)`, with
`r(n) = ratings.get(n, R0)`. -/
noncomputable def teamMean (R0 : ℝ) (ratings : Dict ℝ) (team : List String) : ℝ :=
  (team.map fun n => dget ratings n R0).sum / (team.length : ℝ)

/-- Model of line 58 of `elo_core.py`: the MOV value a match contributes,
the forfeit constant when `forfeit_against in ("A","B")`, else
`mov_factor`. -/
noncomputable def matchMOV (e : EloEngine) (RA RB : ℝ) (row : GameRow) : ℝ :=
  if row.forfeit_against.isSome then e.forfeit_MOV
  else mov_factor RA RB row.score_w row.score_l

/-- Model of `sW = 1.0 if score_w>score_l else 0.0 if score_w<score_l else 0.5`. -/
noncomputable def actualScore (row : GameRow) : ℝ :=
  if row.score_w > row.score_l then 1.0
  else if row.score_w < row.score_l then 0.0 else 0.5

/-- Model of the winner branch of the record update (lines 63-64):
games, wins, losses and ties bumped according to `sW`. -/
noncomputable def updWinner (sW : ℝ) (rec : Record) : Record :=
  ⟨rec.games + 1,
   rec.wins + (if sW = 1.0 then 1 else 0),
   rec.losses + (if sW = 0.0 then 1 else 0),
   rec.ties + (if sW = 0.5 then 1 else 0)⟩

/-- Model of the loser branch of the record update (lines 65-66). -/
noncomputable def updLoser (sW : ℝ) (rec : Record) : Record :=
  ⟨rec.games + 1,
   rec.wins + (if sW = 0.0 then 1 else 0),
   rec.losses + (if sW = 1.0 then 1 else 0),
   rec.ties + (if sW = 0.5 then 1 else 0)⟩

/-- Model of the body of the `for row in rows` loop of `recompute`
(lines 52-66 of `elo_core.py`), assuming both teams nonempty. -/
noncomputable def step (e : EloEngine) (st0 : EloState) (row : GameRow) : EloState :=
  let st := (row.winners ++ row.losers).foldl (ensure e.starting_rating) st0
  let RA := teamMean e.starting_rating st.ratings row.winners
  let RB := teamMean e.starting_rating st.ratings row.losers
  let pW := expected_score RA RB
  let MOV := matchMOV e RA RB row
  let sW := actualScore row
  let D := e.K * MOV * (sW - pW)
  let ratings1 := row.winners.foldl
    (fun d n => dset d n (dget d n e.starting_rating + D)) st.ratings
  let ratings2 := row.losers.foldl
    (fun d n => dset d n (dget d n e.starting_rating - D)) ratings1
  let records1 := row.winners.foldl
    (fun d n => dset d n (updWinner sW (dget d n Record.zero))) st.records
  let records2 := row.losers.foldl
    (fun d n => dset d n (updLoser sW (dget d n Record.zero))) records1
  ⟨ratings2, records2⟩

/-- One loop iteration as the code actually behaves: an empty winner or
loser list makes `sum(...)/len(...)` raise `ZeroDivisionError`. -/
noncomputable def stepE (e : EloEngine) (st : EloState) (row : GameRow) :
    Except EloError EloState :=
  if row.winners.length = 0 ∨ row.losers.length = 0 then
    .error .zeroDivisionError
  else .ok (step e st row)

/-- The loop of `recompute`: a left fold that aborts on the first raised
fault, exactly as an uncaught Python exception would. -/
noncomputable def foldSteps (e : EloEngine) : EloState → List GameRow → Except EloError EloState
  | st, [] => .ok st
  | st, row :: rest =>
    match stepE e st row with
    | .ok st' => foldSteps e st' rest
    | .error err => .error err

/-- Model of `EloEngine.recompute`: copy the baseline (or start empty),
sort the matches by `(date_key, _seq)`, and fold the per-match update. -/
noncomputable def recompute (e : EloEngine) (games : List GameRow)
    (baseline : Option (Dict ℝ)) : Except EloError EloState :=
  foldSteps e ⟨baseline.getD [], []⟩ (sortRows games)

/-! ### The standings formatter -/

/-- One row of the standings `DataFrame` before the rank column. -/
structure SRow : Type where
  Player : String
  Rating : ℝ
  Games : Nat
  W : Nat
  L : Nat
  T : Nat

/-- Round half to even at integer precision, the rounding Python's
builtin `round` applies. -/
noncomputable def roundHalfEven (x : ℝ) : ℤ :=
  let f := ⌊x⌋
  if x - (f : ℝ) < 1 / 2 then f
  else if (1 : ℝ) / 2 < x - (f : ℝ) then f + 1
  else if Even f then f else f + 1

/-- Model of `round(rt, 3)`. -/
noncomputable def round3 (x : ℝ) : ℝ :=
  (roundHalfEven (x * 1000) : ℝ) / 1000

/-- The row built for player `p` in the loop of `make_standings_table`:
rounded rating and the tallies of `records.get(p, zeros)`. -/
noncomputable def mkSRow (records : Dict Record) (p : String) (rt : ℝ) : SRow :=
  let rc := dget records p Record.zero
  ⟨p, round3 rt, rc.games, rc.wins, rc.losses, rc.ties⟩

/-- The unsorted row list: one row per entry of the ratings dict. -/
noncomputable def standingsRows (ratings : Dict ℝ) (records : Dict Record) : List SRow :=
  ratings.map fun pr => mkSRow records pr.1 pr.2

/-- The order of `sort_values(["Rating","Player"], ascending=[False, True])`:
rating descending, player identifier ascending. -/
def srowLE (a b : SRow) : Prop :=
  b.Rating < a.Rating ∨ (a.Rating = b.Rating ∧ a.Player ≤ b.Player)

noncomputable instance : DecidableRel srowLE := fun a b =>
  inferInstanceAs (Decidable (_ ∨ _))

instance : IsTotal SRow srowLE := by
  constructor
  intro a b
  rcases lt_trichotomy a.Rating b.Rating with h | h | h
  · exact Or.inr (Or.inl h)
  · rcases le_total a.Player b.Player with hs | hs
    · exact Or.inl (Or.inr ⟨h, hs⟩)
    · exact Or.inr (Or.inr ⟨h.symm, hs⟩)
  · exact Or.inl (Or.inl h)

instance : IsTrans SRow srowLE := by
  constructor
  intro a b c hab hbc
  rcases hab with h1 | ⟨h1, s1⟩
  · rcases hbc with h2 | ⟨h2, _⟩
    · exact Or.inl (h2.trans h1)
    · exact Or.inl (h2 ▸ h1)
  · rcases hbc with h2 | ⟨h2, s2⟩
    · exact Or.inl (h1 ▸ h2)
    · exact Or.inr ⟨h1.trans h2, s1.trans s2⟩

/-- Model of `make_standings_table`: build a row per ratings entry, sort
by rating descending then player ascending, attach the rank column
`range(1, len(df)+1)`, and report whether the ties column is kept
(it is dropped when `df["T"].sum() == 0`). -/
noncomputable def make_standings_table (ratings : Dict ℝ) (records : Dict Record) :
    List (Nat × SRow) × Bool :=
  let sortedRows := (standingsRows ratings records).insertionSort srowLE
  let ranked := ((List.range sortedRows.length).zip sortedRows).map
    fun p => (p.1 + 1, p.2)
  (ranked, ((standingsRows ratings records).map fun r => r.T).sum != 0)

/-! ### Concrete matches used in scenario checks and witnesses -/

/-- Scenario A of the spec: Alice beats Bob 7-6 on 2024-01-01, no forfeit. -/
def gA : GameRow := ⟨"2024-01-01", ["Alice"], ["Bob"], 7, 6, none, 0⟩

/-- A match with an empty winners list: the degenerate input of §7. -/
def gEmptyWinners : GameRow := ⟨"2024-01-01", [], ["Bob"], 0, 7, none, 0⟩

/-- A forfeit win of A over B with an unparseable date, sequence number 0. -/
def mForfeitWin : GameRow := ⟨"x", ["A"], ["B"], 1, 0, some Side.A, 0⟩

/-- A forfeit-flagged 1-1 tie of the same pair, same date string, same
sequence number 0: its sort key collides with `mForfeitWin`. -/
def mForfeitTie : GameRow := ⟨"x", ["A"], ["B"], 1, 1, some Side.A, 0⟩

/-- A forfeit win of A over B with an unparseable date, sequence number 1. -/
def mForfeitWin1 : GameRow := ⟨"x", ["A"], ["B"], 1, 0, some Side.A, 1⟩

/-- A forfeit recorded with a lopsided 100-0 score. -/
def gForfeit100 : GameRow := ⟨"2024-02-02", ["X"], ["Y"], 100, 0, some Side.B, 3⟩

/-! ### Dictionary lemmas -/

theorem dlookup_dset {α : Type} (d : Dict α) (k k' : String) (v : α) :
    dlookup (dset d k v) k' = if k = k' then some v else dlookup d k' := by
  induction d with
  | nil => simp [dset, dlookup]
  | cons hd t ih =>
    obtain ⟨k0, v0⟩ := hd
    by_cases h1 : k0 = k
    · subst h1
      by_cases h2 : k0 = k'
      · subst h2; simp [dset, dlookup]
      · simp [dset, dlookup, h2]
    · by_cases h2 : k0 = k'
      · subst h2
        have : ¬ k = k0 := fun h => h1 h.symm
        simp [dset, dlookup, h1, this]
      · simp [dset, dlookup, h1, h2, ih]

theorem dget_dset_self {α : Type} (d : Dict α) (k : String) (v v0 : α) :
    dget (dset d k v) k v0 = v := by
  simp [dget, dlookup_dset]

theorem dget_dset_ne {α : Type} (d : Dict α) (k k' : String) (v v0 : α) (h : k ≠ k') :
    dget (dset d k v) k' v0 = dget d k' v0 := by
  simp [dget, dlookup_dset, h]

theorem dmem_dset {α : Type} (d : Dict α) (k k' : String) (v : α) :
    dmem (dset d k v) k' = (dmem d k' || (k = k' : Bool)) := by
  by_cases h : k = k'
  · simp [dmem, dlookup_dset, h]
  · simp [dmem, dlookup_dset, h]

theorem dget_of_not_dmem {α : Type} (d : Dict α) (k : String) (v0 : α)
    (h : dmem d k = false) : dget d k v0 = v0 := by
  unfold dmem at h
  unfold dget
  cases hl : dlookup d k with
  | none => rfl
  | some v => rw [hl] at h; simp at h

/-- Folding key insertions never erases an existing key. -/
theorem dmem_foldl_dset {α : Type} (F : Dict α → String → α) (names : List String)
    (d : Dict α) (n : String) (h : dmem d n = true) :
    dmem (names.foldl (fun acc m => dset acc m (F acc m)) d) n = true := by
  induction names generalizing d with
  | nil => exact h
  | cons m rest ih =>
    simp only [List.foldl_cons]
    exact ih _ (by simp [dmem_dset, h])

/-- Folding key insertions at keys other than `n` leaves `n`'s binding alone. -/
theorem dlookup_foldl_dset_not_mem {α : Type} (F : Dict α → String → α)
    (names : List String) (d : Dict α) (n : String) (h : n ∉ names) :
    dlookup (names.foldl (fun acc m => dset acc m (F acc m)) d) n = dlookup d n := by
  induction names generalizing d with
  | nil => rfl
  | cons m rest ih =>
    simp only [List.mem_cons, not_or] at h
    simp only [List.foldl_cons]
    rw [ih _ h.2, dlookup_dset, if_neg (fun hk => h.1 hk.symm)]

/-- The rating update loop adds `D` once to each distinct listed player. -/
theorem dget_foldl_add (R0 D : ℝ) (names : List String) (d : Dict ℝ) (n : String)
    (hn : n ∈ names) (hnd : names.Nodup) :
    dget (names.foldl (fun acc m => dset acc m (dget acc m R0 + D)) d) n R0 =
      dget d n R0 + D := by
  induction names generalizing d with
  | nil => cases hn
  | cons m rest ih =>
    obtain ⟨hm, hrest⟩ := List.nodup_cons.mp hnd
    simp only [List.foldl_cons]
    rcases List.mem_cons.mp hn with h | h
    · subst h
      unfold dget
      rw [dlookup_foldl_dset_not_mem _ rest _ n hm]
      simp [dlookup_dset, dget]
    · have hne : m ≠ n := fun he => hm (he ▸ h)
      rw [ih _ h hrest, dget_dset_ne _ _ _ _ _ hne]

/-- The rating update loop subtracts `D` once from each distinct listed player. -/
theorem dget_foldl_sub (R0 D : ℝ) (names : List String) (d : Dict ℝ) (n : String)
    (hn : n ∈ names) (hnd : names.Nodup) :
    dget (names.foldl (fun acc m => dset acc m (dget acc m R0 - D)) d) n R0 =
      dget d n R0 - D := by
  induction names generalizing d with
  | nil => cases hn
  | cons m rest ih =>
    obtain ⟨hm, hrest⟩ := List.nodup_cons.mp hnd
    simp only [List.foldl_cons]
    rcases List.mem_cons.mp hn with h | h
    · subst h
      unfold dget
      rw [dlookup_foldl_dset_not_mem _ rest _ n hm]
      simp [dlookup_dset, dget]
    · have hne : m ≠ n := fun he => hm (he ▸ h)
      rw [ih _ h hrest, dget_dset_ne _ _ _ _ _ hne]

/-! ### Lemmas about `ensure` and the per-match step -/

theorem ensure_ratings_dget (R0 : ℝ) (st : EloState) (n m : String) :
    dget (ensure R0 st n).ratings m R0 = dget st.ratings m R0 := by
  by_cases h : dmem st.ratings n = true
  · simp [ensure, h]
  · rw [show (ensure R0 st n).ratings = dset st.ratings n R0 from by simp [ensure, h]]
    by_cases hnm : n = m
    · subst hnm
      rw [dget_dset_self, dget_of_not_dmem _ _ _ (by simpa using h)]
    · exact dget_dset_ne _ _ _ _ _ hnm

theorem ensure_records_dget (R0 : ℝ) (st : EloState) (n m : String) :
    dget (ensure R0 st n).records m Record.zero = dget st.records m Record.zero := by
  by_cases h : dmem st.records n = true
  · simp [ensure, h]
  · rw [show (ensure R0 st n).records = dset st.records n Record.zero from by
      simp [ensure, h]]
    by_cases hnm : n = m
    · subst hnm
      rw [dget_dset_self, dget_of_not_dmem _ _ _ (by simpa using h)]
    · exact dget_dset_ne _ _ _ _ _ hnm

theorem ensureFold_ratings_dget (R0 : ℝ) (names : List String) (st : EloState) (m : String) :
    dget (names.foldl (ensure R0) st).ratings m R0 = dget st.ratings m R0 := by
  induction names generalizing st with
  | nil => rfl
  | cons n rest ih => rw [List.foldl_cons, ih, ensure_ratings_dget]

theorem ensureFold_records_dget (R0 : ℝ) (names : List String) (st : EloState) (m : String) :
    dget (names.foldl (ensure R0) st).records m Record.zero =
      dget st.records m Record.zero := by
  induction names generalizing st with
  | nil => rfl
  | cons n rest ih => rw [List.foldl_cons, ih, ensure_records_dget]

theorem dmem_ensure_ratings_self (R0 : ℝ) (st : EloState) (n : String) :
    dmem (ensure R0 st n).ratings n = true := by
  unfold ensure
  by_cases h : dmem st.ratings n = true
  · simpa [h]
  · simp [h, dmem_dset]

theorem dmem_ensure_records_self (R0 : ℝ) (st : EloState) (n : String) :
    dmem (ensure R0 st n).records n = true := by
  unfold ensure
  by_cases h : dmem st.records n = true
  · simpa [h]
  · simp [h, dmem_dset]

theorem dmem_ensure_ratings_mono (R0 : ℝ) (st : EloState) (n m : String)
    (h : dmem st.ratings m = true) : dmem (ensure R0 st n).ratings m = true := by
  unfold ensure
  by_cases hn : dmem st.ratings n = true
  · simpa [hn]
  · simp [hn, dmem_dset, h]

theorem dmem_ensure_records_mono (R0 : ℝ) (st : EloState) (n m : String)
    (h : dmem st.records m = true) : dmem (ensure R0 st n).records m = true := by
  unfold ensure
  by_cases hn : dmem st.records n = true
  · simpa [hn]
  · simp [hn, dmem_dset, h]

theorem ensureFold_ratings_mem_mono (R0 : ℝ) (names : List String) (st : EloState)
    (m : String) (h : dmem st.ratings m = true) :
    dmem (names.foldl (ensure R0) st).ratings m = true := by
  induction names generalizing st with
  | nil => exact h
  | cons n rest ih =>
    rw [List.foldl_cons]
    exact ih _ (dmem_ensure_ratings_mono _ _ _ _ h)

theorem ensureFold_records_mem_mono (R0 : ℝ) (names : List String) (st : EloState)
    (m : String) (h : dmem st.records m = true) :
    dmem (names.foldl (ensure R0) st).records m = true := by
  induction names generalizing st with
  | nil => exact h
  | cons n rest ih =>
    rw [List.foldl_cons]
    exact ih _ (dmem_ensure_records_mono _ _ _ _ h)

theorem ensureFold_ratings_mem (R0 : ℝ) (names : List String) (st : EloState)
    (n : String) (hn : n ∈ names) :
    dmem (names.foldl (ensure R0) st).ratings n = true := by
  induction names generalizing st with
  | nil => cases hn
  | cons m rest ih =>
    rw [List.foldl_cons]
    rcases List.mem_cons.mp hn with h | h
    · subst h
      exact ensureFold_ratings_mem_mono _ _ _ _ (dmem_ensure_ratings_self _ _ _)
    · exact ih _ h

theorem ensureFold_records_mem (R0 : ℝ) (names : List String) (st : EloState)
    (n : String) (hn : n ∈ names) :
    dmem (names.foldl (ensure R0) st).records n = true := by
  induction names generalizing st with
  | nil => cases hn
  | cons m rest ih =>
    rw [List.foldl_cons]
    rcases List.mem_cons.mp hn with h | h
    · subst h
      exact ensureFold_records_mem_mono _ _ _ _ (dmem_ensure_records_self _ _ _)
    · exact ih _ h

theorem ensure_ratings_lookup_ne (R0 : ℝ) (st : EloState) (n m : String) (h : n ≠ m) :
    dlookup (ensure R0 st n).ratings m = dlookup st.ratings m := by
  unfold ensure
  by_cases hn : dmem st.ratings n = true
  · simp [hn]
  · simp [hn, dlookup_dset, h]

theorem ensureFold_ratings_lookup_not_mem (R0 : ℝ) (names : List String) (st : EloState)
    (m : String) (h : m ∉ names) :
    dlookup (names.foldl (ensure R0) st).ratings m = dlookup st.ratings m := by
  induction names generalizing st with
  | nil => rfl
  | cons n rest ih =>
    simp only [List.mem_cons, not_or] at h
    rw [List.foldl_cons, ih _ h.2,
        ensure_ratings_lookup_ne _ _ _ _ (fun he => h.1 he.symm)]

theorem teamMean_congr (R0 : ℝ) (d1 d2 : Dict ℝ) (team : List String)
    (h : ∀ n, dget d1 n R0 = dget d2 n R0) :
    teamMean R0 d1 team = teamMean R0 d2 team := by
  unfold teamMean
  have he : (fun n => dget d1 n R0) = fun n => dget d2 n R0 := funext h
  rw [he]

theorem dget_foldl_dset_not_mem {α : Type} (F : Dict α → String → α) (names : List String)
    (d : Dict α) (n : String) (v0 : α) (h : n ∉ names) :
    dget (names.foldl (fun acc m => dset acc m (F acc m)) d) n v0 = dget d n v0 := by
  unfold dget
  rw [dlookup_foldl_dset_not_mem _ _ _ _ h]

/-- On a match row, each winner not also listed as a loser gains exactly the
delta `K * MOV * (s - pWin)` computed from the pre-match team means. -/
theorem step_ratings_winner (e : EloEngine) (st : EloState) (row : GameRow)
    (hwd : row.winners.Nodup) (n : String) (hn : n ∈ row.winners) (hnl : n ∉ row.losers) :
    dget (step e st row).ratings n e.starting_rating =
      dget st.ratings n e.starting_rating +
        e.K * matchMOV e (teamMean e.starting_rating st.ratings row.winners)
            (teamMean e.starting_rating st.ratings row.losers) row *
          (actualScore row -
            expected_score (teamMean e.starting_rating st.ratings row.winners)
              (teamMean e.starting_rating st.ratings row.losers)) := by
  have hmean : ∀ team, teamMean e.starting_rating
      ((row.winners ++ row.losers).foldl (ensure e.starting_rating) st).ratings team =
      teamMean e.starting_rating st.ratings team := fun team =>
    teamMean_congr _ _ _ team (fun m => ensureFold_ratings_dget _ _ _ _)
  simp only [step]
  rw [dget_foldl_dset_not_mem _ row.losers _ n _ hnl]
  rw [dget_foldl_add _ _ _ _ _ hn hwd]
  rw [ensureFold_ratings_dget, hmean row.winners, hmean row.losers]

/-- On a match row, each loser not also listed as a winner loses exactly the
delta `K * MOV * (s - pWin)` computed from the pre-match team means. -/
theorem step_ratings_loser (e : EloEngine) (st : EloState) (row : GameRow)
    (hld : row.losers.Nodup) (n : String) (hn : n ∈ row.losers) (hnw : n ∉ row.winners) :
    dget (step e st row).ratings n e.starting_rating =
      dget st.ratings n e.starting_rating -
        e.K * matchMOV e (teamMean e.starting_rating st.ratings row.winners)
            (teamMean e.starting_rating st.ratings row.losers) row *
          (actualScore row -
            expected_score (teamMean e.starting_rating st.ratings row.winners)
              (teamMean e.starting_rating st.ratings row.losers)) := by
  have hmean : ∀ team, teamMean e.starting_rating
      ((row.winners ++ row.losers).foldl (ensure e.starting_rating) st).ratings team =
      teamMean e.starting_rating st.ratings team := fun team =>
    teamMean_congr _ _ _ team (fun m => ensureFold_ratings_dget _ _ _ _)
  simp only [step]
  rw [dget_foldl_sub _ _ _ _ _ hn hld]
  rw [dget_foldl_dset_not_mem _ row.winners _ n _ hnw]
  rw [ensureFold_ratings_dget, hmean row.winners, hmean row.losers]

/-! ### Claim C1 -/

/-- C1: for every match processed by `recompute` (one iteration of its fold,
with both teams nonempty and each player listed on one side only), the
per-match delta is `D = K * mov * (s - pWin)` where the team ratings are the
unweighted arithmetic means of the current ratings of winners and losers,
and the full `D` is added to every winner's rating and subtracted from every
loser's rating, not divided across teammates. -/
theorem recompute_applies_full_delta_per_player (e : EloEngine) (st : EloState)
    (row : GameRow) (hw : row.winners ≠ []) (hl : row.losers ≠ [])
    (hwd : row.winners.Nodup) (hld : row.losers.Nodup)
    (hdisj : ∀ n ∈ row.winners, n ∉ row.losers) :
    stepE e st row = Except.ok (step e st row) ∧
    (∀ n ∈ row.winners,
      dget (step e st row).ratings n e.starting_rating =
        dget st.ratings n e.starting_rating +
          e.K * matchMOV e (teamMean e.starting_rating st.ratings row.winners)
              (teamMean e.starting_rating st.ratings row.losers) row *
            (actualScore row -
              expected_score (teamMean e.starting_rating st.ratings row.winners)
                (teamMean e.starting_rating st.ratings row.losers))) ∧
    (∀ n ∈ row.losers,
      dget (step e st row).ratings n e.starting_rating =
        dget st.ratings n e.starting_rating -
          e.K * matchMOV e (teamMean e.starting_rating st.ratings row.winners)
              (teamMean e.starting_rating st.ratings row.losers) row *
            (actualScore row -
              expected_score (teamMean e.starting_rating st.ratings row.winners)
                (teamMean e.starting_rating st.ratings row.losers))) := by
  refine ⟨?_, ?_, ?_⟩
  · unfold stepE
    rw [if_neg]
    push_neg
    exact ⟨fun h => hw (List.length_eq_zero.mp h), fun h => hl (List.length_eq_zero.mp h)⟩
  · intro n hn
    exact step_ratings_winner e st row hwd n hn (hdisj n hn)
  · intro n hn
    exact step_ratings_loser e st row hld n hn (fun hw' => hdisj n hw' hn)

theorem recompute_applies_full_delta_per_player_witness :
    stepE defaultEngine ⟨[], []⟩ gA = Except.ok (step defaultEngine ⟨[], []⟩ gA) ∧
    (∀ n ∈ gA.winners,
      dget (step defaultEngine ⟨[], []⟩ gA).ratings n defaultEngine.starting_rating =
        dget (EloState.mk [] []).ratings n defaultEngine.starting_rating +
          defaultEngine.K *
            matchMOV defaultEngine
              (teamMean defaultEngine.starting_rating (EloState.mk [] []).ratings gA.winners)
              (teamMean defaultEngine.starting_rating (EloState.mk [] []).ratings gA.losers) gA *
            (actualScore gA -
              expected_score
                (teamMean defaultEngine.starting_rating (EloState.mk [] []).ratings gA.winners)
                (teamMean defaultEngine.starting_rating (EloState.mk [] []).ratings gA.losers))) ∧
    (∀ n ∈ gA.losers,
      dget (step defaultEngine ⟨[], []⟩ gA).ratings n defaultEngine.starting_rating =
        dget (EloState.mk [] []).ratings n defaultEngine.starting_rating -
          defaultEngine.K *
            matchMOV defaultEngine
              (teamMean defaultEngine.starting_rating (EloState.mk [] []).ratings gA.winners)
              (teamMean defaultEngine.starting_rating (EloState.mk [] []).ratings gA.losers) gA *
            (actualScore gA -
              expected_score
                (teamMean defaultEngine.starting_rating (EloState.mk [] []).ratings gA.winners)
                (teamMean defaultEngine.starting_rating (EloState.mk [] []).ratings gA.losers))) :=
  recompute_applies_full_delta_per_player defaultEngine ⟨[], []⟩ gA
    (by decide) (by decide) (by decide) (by decide) (by decide)

/-! ### Claim C2 -/

/-- C2: a match with an empty winners list is not rejected by validation;
the fold propagates the arithmetic `ZeroDivisionError` raised by
`sum(...)/len(winners)`, contradicting the design requirement of §7. -/
theorem recompute_empty_team_zero_division :
    recompute defaultEngine [gEmptyWinners] none =
      Except.error EloError.zeroDivisionError := by
  simp [recompute, sortRows, List.insertionSort, List.orderedInsert, foldSteps, stepE,
        gEmptyWinners]

/-! ### Claim C5 -/

/-- C5: whenever a match carries a forfeit indicator, the MOV value used by
the per-match update is the configured forfeit constant, whatever the
recorded scores are: the `mov_factor` formula is bypassed entirely. -/
theorem forfeit_overrides_mov (e : EloEngine) (RA RB : ℝ) (row : GameRow)
    (side : Side) (h : row.forfeit_against = some side) :
    matchMOV e RA RB row = e.forfeit_MOV ∧
    ∀ (a b : Int),
      matchMOV e RA RB { row with score_w := a, score_l := b } = e.forfeit_MOV := by
  constructor
  · simp [matchMOV, h]
  · intro a b
    simp [matchMOV, h]

theorem forfeit_overrides_mov_witness :
    matchMOV defaultEngine 1200 1300 gForfeit100 = defaultEngine.forfeit_MOV ∧
    ∀ (a b : Int),
      matchMOV defaultEngine 1200 1300 { gForfeit100 with score_w := a, score_l := b } =
        defaultEngine.forfeit_MOV :=
  forfeit_overrides_mov defaultEngine 1200 1300 gForfeit100 Side.B rfl

/-! ### Claim C6 -/

/-- C6: `mov_factor` returns exactly 0 on equal scores, otherwise equals
`ln(|scoreWin - scoreLose| + 1) * (2.2 / (|ratingA - ratingB| / 400 + 2.2))`,
and for fixed ratings it is strictly increasing in the absolute score
difference. -/
theorem mov_factor_zero_and_monotone :
    (∀ (RA RB : ℝ) (sa sb : ℤ), 0 ≤ sa → 0 ≤ sb → sa = sb →
       mov_factor RA RB sa sb = 0) ∧
    (∀ (RA RB : ℝ) (sa sb : ℤ), 0 ≤ sa → 0 ≤ sb → sa ≠ sb →
       mov_factor RA RB sa sb =
         Real.log (|(sa : ℝ) - (sb : ℝ)| + 1) * (2.2 / (|RA - RB| / 400 + 2.2))) ∧
    (∀ (RA RB : ℝ) (sa sb ta tb : ℤ), 0 ≤ sa → 0 ≤ sb → 0 ≤ ta → 0 ≤ tb →
       (sa - sb).natAbs < (ta - tb).natAbs →
       mov_factor RA RB sa sb < mov_factor RA RB ta tb) := by
  have cpos : ∀ RA RB : ℝ, 0 < 2.2 / (|RA - RB| / 400 + 2.2) := by
    intro RA RB
    have h1 : (0:ℝ) < |RA - RB| / 400 + 2.2 := by positivity
    exact div_pos (by norm_num) h1
  have hcast : ∀ sa sb : ℤ, (((sa - sb).natAbs : ℝ)) = |(sa : ℝ) - (sb : ℝ)| := by
    intro sa sb
    rw [Int.cast_natAbs]
    push_cast
    ring_nf
  refine ⟨?_, ?_, ?_⟩
  · intro RA RB sa sb _ _ h
    subst h
    simp [mov_factor]
  · intro RA RB sa sb _ _ h
    have hd : ¬ (sa - sb).natAbs = 0 := by
      simpa [Int.natAbs_eq_zero, sub_eq_zero] using h
    simp only [mov_factor, hd, if_false]
    rw [hcast]
  · intro RA RB sa sb ta tb _ _ _ _ hlt
    have ht : ¬ (ta - tb).natAbs = 0 := by omega
    by_cases hs : (sa - sb).natAbs = 0
    · have h1 : (1:ℝ) < ((ta - tb).natAbs : ℝ) + 1 := by
        have h2 : 1 ≤ (ta - tb).natAbs := Nat.one_le_iff_ne_zero.mpr ht
        have h3 : (1:ℝ) ≤ ((ta - tb).natAbs : ℝ) := by exact_mod_cast h2
        linarith
      have h0 : mov_factor RA RB sa sb = 0 := by simp [mov_factor, hs]
      have hT : mov_factor RA RB ta tb =
          Real.log (((ta - tb).natAbs : ℝ) + 1) * (2.2 / (|RA - RB| / 400 + 2.2)) := by
        simp [mov_factor, ht]
      rw [h0, hT]
      exact mul_pos (Real.log_pos h1) (cpos RA RB)
    · have hnum : ((sa - sb).natAbs : ℝ) + 1 < ((ta - tb).natAbs : ℝ) + 1 := by
        have : ((sa - sb).natAbs : ℝ) < ((ta - tb).natAbs : ℝ) := by exact_mod_cast hlt
        linarith
      have hlog : Real.log (((sa - sb).natAbs : ℝ) + 1) <
          Real.log (((ta - tb).natAbs : ℝ) + 1) := by
        apply Real.log_lt_log
        · positivity
        · exact hnum
      simp only [mov_factor, hs, ht, if_false]
      exact mul_lt_mul_of_pos_right hlog (cpos RA RB)

theorem mov_factor_zero_and_monotone_witness :
    mov_factor 1200 1100 3 3 = 0 ∧
    mov_factor 1200 1100 3 1 =
      Real.log (|((3 : ℤ) : ℝ) - ((1 : ℤ) : ℝ)| + 1) *
        (2.2 / (|(1200 : ℝ) - 1100| / 400 + 2.2)) ∧
    mov_factor 1200 1100 3 2 < mov_factor 1200 1100 3 0 :=
  ⟨mov_factor_zero_and_monotone.1 1200 1100 3 3 (by norm_num) (by norm_num) rfl,
   mov_factor_zero_and_monotone.2.1 1200 1100 3 1 (by norm_num) (by norm_num) (by norm_num),
   mov_factor_zero_and_monotone.2.2 1200 1100 3 2 3 0 (by norm_num) (by norm_num)
     (by norm_num) (by norm_num) (by decide)⟩

/-! ### Claim C8 -/

theorem step_ratings_mem_mono (e : EloEngine) (st : EloState) (row : GameRow)
    (n : String) (h : dmem st.ratings n = true) :
    dmem (step e st row).ratings n = true := by
  simp only [step]
  apply dmem_foldl_dset
  apply dmem_foldl_dset
  exact ensureFold_ratings_mem_mono _ _ _ _ h

theorem step_records_mem_mono (e : EloEngine) (st : EloState) (row : GameRow)
    (n : String) (h : dmem st.records n = true) :
    dmem (step e st row).records n = true := by
  simp only [step]
  apply dmem_foldl_dset
  apply dmem_foldl_dset
  exact ensureFold_records_mem_mono _ _ _ _ h

theorem step_ratings_mem_participant (e : EloEngine) (st : EloState) (row : GameRow)
    (n : String) (h : n ∈ row.winners ++ row.losers) :
    dmem (step e st row).ratings n = true := by
  simp only [step]
  apply dmem_foldl_dset
  apply dmem_foldl_dset
  exact ensureFold_ratings_mem _ _ _ _ h

theorem step_records_mem_participant (e : EloEngine) (st : EloState) (row : GameRow)
    (n : String) (h : n ∈ row.winners ++ row.losers) :
    dmem (step e st row).records n = true := by
  simp only [step]
  apply dmem_foldl_dset
  apply dmem_foldl_dset
  exact ensureFold_records_mem _ _ _ _ h

theorem foldSteps_mem_mono (e : EloEngine) (rows : List GameRow) (st out : EloState)
    (h : foldSteps e st rows = Except.ok out) (n : String)
    (hr : dmem st.ratings n = true) (hc : dmem st.records n = true) :
    dmem out.ratings n = true ∧ dmem out.records n = true := by
  induction rows generalizing st with
  | nil =>
    simp only [foldSteps] at h
    injection h with h2
    subst h2
    exact ⟨hr, hc⟩
  | cons row rest ih =>
    by_cases hlen : row.winners.length = 0 ∨ row.losers.length = 0
    · simp only [foldSteps, stepE, if_pos hlen] at h
      exact Except.noConfusion h
    · simp only [foldSteps, stepE, if_neg hlen] at h
      exact ih _ h (step_ratings_mem_mono _ _ _ _ hr) (step_records_mem_mono _ _ _ _ hc)

theorem foldSteps_mem_participant (e : EloEngine) (rows : List GameRow) (st out : EloState)
    (h : foldSteps e st rows = Except.ok out) (n : String) (g : GameRow)
    (hg : g ∈ rows) (hn : n ∈ g.winners ++ g.losers) :
    dmem out.ratings n = true ∧ dmem out.records n = true := by
  induction rows generalizing st with
  | nil => cases hg
  | cons row rest ih =>
    by_cases hlen : row.winners.length = 0 ∨ row.losers.length = 0
    · simp only [foldSteps, stepE, if_pos hlen] at h
      exact Except.noConfusion h
    · simp only [foldSteps, stepE, if_neg hlen] at h
      rcases List.mem_cons.mp hg with he | hg'
      · subst he
        exact foldSteps_mem_mono e rest _ out h n
          (step_ratings_mem_participant _ _ _ _ hn)
          (step_records_mem_participant _ _ _ _ hn)
      · exact ih _ h hg'

/-- C8: after a successful `recompute`, every player identifier appearing in
any match's winner or loser list is a key of both the output ratings dict
and the output records dict. -/
theorem recompute_mentions_every_participant (e : EloEngine) (games : List GameRow)
    (baseline : Option (Dict ℝ)) (out : EloState)
    (h : recompute e games baseline = Except.ok out)
    (n : String) (g : GameRow) (hg : g ∈ games) (hn : n ∈ g.winners ∨ n ∈ g.losers) :
    dmem out.ratings n = true ∧ dmem out.records n = true := by
  unfold recompute at h
  have hg' : g ∈ sortRows games :=
    (List.perm_insertionSort leKey games).mem_iff.mpr hg
  exact foldSteps_mem_participant e (sortRows games) _ out h n g hg'
    (List.mem_append.mpr hn)

/-! ### Claim C10 -/

theorem step_ratings_lookup_untouched (e : EloEngine) (st : EloState) (row : GameRow)
    (n : String) (h1 : n ∉ row.winners) (h2 : n ∉ row.losers) :
    dlookup (step e st row).ratings n = dlookup st.ratings n := by
  simp only [step]
  rw [dlookup_foldl_dset_not_mem _ row.losers _ n h2,
      dlookup_foldl_dset_not_mem _ row.winners _ n h1]
  exact ensureFold_ratings_lookup_not_mem _ _ _ _
    (fun hm => (List.mem_append.mp hm).elim h1 h2)

theorem foldSteps_ratings_lookup_untouched (e : EloEngine) (rows : List GameRow)
    (st out : EloState) (h : foldSteps e st rows = Except.ok out) (n : String)
    (hn : ∀ g ∈ rows, n ∉ g.winners ∧ n ∉ g.losers) :
    dlookup out.ratings n = dlookup st.ratings n := by
  induction rows generalizing st with
  | nil =>
    simp only [foldSteps] at h
    injection h with h2
    subst h2
    rfl
  | cons row rest ih =>
    by_cases hlen : row.winners.length = 0 ∨ row.losers.length = 0
    · simp only [foldSteps, stepE, if_pos hlen] at h
      exact Except.noConfusion h
    · simp only [foldSteps, stepE, if_neg hlen] at h
      have hrow := hn row (List.mem_cons_self _ _)
      rw [ih _ h (fun g hg => hn g (List.mem_cons_of_mem _ hg))]
      exact step_ratings_lookup_untouched e st row n hrow.1 hrow.2

/-- C10: `recompute` never alters the caller's baseline (the model folds
over a copy), and a baseline player who appears in no match keeps exactly
the baseline binding in the output ratings dict. -/
theorem recompute_preserves_untouched_baseline (e : EloEngine) (games : List GameRow)
    (b : Dict ℝ) (out : EloState) (h : recompute e games (some b) = Except.ok out)
    (n : String) (hn : ∀ g ∈ games, n ∉ g.winners ∧ n ∉ g.losers) :
    dlookup out.ratings n = dlookup b n := by
  unfold recompute at h
  have hn' : ∀ g ∈ sortRows games, n ∉ g.winners ∧ n ∉ g.losers := fun g hg =>
    hn g ((List.perm_insertionSort leKey games).mem_iff.mp hg)
  simpa using foldSteps_ratings_lookup_untouched e (sortRows games) _ out h n hn'

/-! ### Scenario evaluations -/

/-- Full evaluation of `recompute` on scenario A from a cold start. -/
theorem recompute_gA_eval :
    recompute defaultEngine [gA] none =
      Except.ok ⟨[("Alice", 1200 + 30 * Real.log 2 * 0.5),
                  ("Bob", 1200 - 30 * Real.log 2 * 0.5)],
                 [("Alice", ⟨1, 1, 0, 0⟩), ("Bob", ⟨1, 0, 1, 0⟩)]⟩ := by
  simp [recompute, sortRows, List.insertionSort, List.orderedInsert, foldSteps, stepE, step,
        ensure, dmem, dlookup, dset, dget, teamMean, matchMOV, actualScore, expected_score,
        mov_factor, updWinner, updLoser, Record.zero, gA, defaultEngine]
  norm_num

/-- Evaluation of `recompute` on scenario A over a baseline holding an
uninvolved player Carol. -/
theorem recompute_gA_baseline_eval :
    recompute defaultEngine [gA] (some [("Carol", 1000)]) =
      Except.ok ⟨[("Carol", 1000),
                  ("Alice", 1200 + 30 * Real.log 2 * 0.5),
                  ("Bob", 1200 - 30 * Real.log 2 * 0.5)],
                 [("Alice", ⟨1, 1, 0, 0⟩), ("Bob", ⟨1, 0, 1, 0⟩)]⟩ := by
  simp [recompute, sortRows, List.insertionSort, List.orderedInsert, foldSteps, stepE, step,
        ensure, dmem, dlookup, dset, dget, teamMean, matchMOV, actualScore, expected_score,
        mov_factor, updWinner, updLoser, Record.zero, gA, defaultEngine]
  norm_num

/-! ### Claim C9 -/

/-- C9: with the default configuration, no baseline, and the single match of
scenario A (Alice beats Bob 7-6 on 2024-01-01, no forfeit), `recompute`
yields `pWin = 0.5`, `mov = ln 2`, final ratings `1200 ± 30 * ln 2 * 0.5`
(about 1210.397 and 1189.603), and records of one win for Alice and one loss
for Bob. -/
theorem recompute_scenarioA :
    expected_score 1200 1200 = 0.5 ∧
    mov_factor 1200 1200 7 6 = Real.log 2 ∧
    ∃ out, recompute defaultEngine [gA] none = Except.ok out ∧
      dlookup out.ratings "Alice" = some (1200 + 30 * Real.log 2 * 0.5) ∧
      dlookup out.ratings "Bob" = some (1200 - 30 * Real.log 2 * 0.5) ∧
      dlookup out.records "Alice" = some ⟨1, 1, 0, 0⟩ ∧
      dlookup out.records "Bob" = some ⟨1, 0, 1, 0⟩ ∧
      (∀ x, dlookup out.ratings "Alice" = some x → 1210.397 < x ∧ x < 1210.398) ∧
      (∀ x, dlookup out.ratings "Bob" = some x → 1189.602 < x ∧ x < 1189.603) := by
  have hlog1 := Real.log_two_gt_d9
  have hlog2 := Real.log_two_lt_d9
  refine ⟨?_, ?_, ?_⟩
  · simp [expected_score]
    norm_num
  · simp [mov_factor]
    norm_num
  · refine ⟨_, recompute_gA_eval, ?_, ?_, ?_, ?_, ?_, ?_⟩
    · simp [dlookup]
    · simp [dlookup]
    · simp [dlookup]
    · simp [dlookup]
    · intro x hx
      simp [dlookup] at hx
      subst hx
      constructor <;> nlinarith
    · intro x hx
      simp [dlookup] at hx
      subst hx
      constructor <;> nlinarith

theorem recompute_mentions_every_participant_witness :
    dmem (EloState.mk
      [("Alice", 1200 + 30 * Real.log 2 * 0.5), ("Bob", 1200 - 30 * Real.log 2 * 0.5)]
      [("Alice", ⟨1, 1, 0, 0⟩), ("Bob", ⟨1, 0, 1, 0⟩)]).ratings "Alice" = true ∧
    dmem (EloState.mk
      [("Alice", 1200 + 30 * Real.log 2 * 0.5), ("Bob", 1200 - 30 * Real.log 2 * 0.5)]
      [("Alice", ⟨1, 1, 0, 0⟩), ("Bob", ⟨1, 0, 1, 0⟩)]).records "Alice" = true :=
  recompute_mentions_every_participant defaultEngine [gA] none _ recompute_gA_eval
    "Alice" gA (List.mem_singleton.mpr rfl) (Or.inl (by decide))

theorem recompute_preserves_untouched_baseline_witness :
    dlookup (EloState.mk
      [("Carol", 1000),
       ("Alice", 1200 + 30 * Real.log 2 * 0.5), ("Bob", 1200 - 30 * Real.log 2 * 0.5)]
      [("Alice", ⟨1, 1, 0, 0⟩), ("Bob", ⟨1, 0, 1, 0⟩)]).ratings "Carol" =
      dlookup [("Carol", (1000 : ℝ))] "Carol" :=
  recompute_preserves_untouched_baseline defaultEngine [gA] [("Carol", 1000)] _
    recompute_gA_baseline_eval "Carol" (by decide)

/-! ### Claim C7 -/

/-- C7: a match whose date string fails both parses is keyed `⊤` (the
"infinitely late" sentinel, never an error), every row at or after it in the
sorted order is likewise unparseable — so it sorts after every match with a
parseable date — and among such rows the submission sequence number is the
tie-break; the sort output is a permutation of the input, so the match is
kept, not dropped. -/
theorem unparseable_dates_sort_last (games : List GameRow) (i j : ℕ)
    (hj : j < (sortRows games).length) (hij : i < j)
    (h1 : fromisoformat ((sortRows games).get ⟨i, lt_trans hij hj⟩).date = none)
    (h2 : strptimeYMD ((sortRows games).get ⟨i, lt_trans hij hj⟩).date = none) :
    List.Perm (sortRows games) games ∧
    date_key ((sortRows games).get ⟨i, lt_trans hij hj⟩).date = ⊤ ∧
    date_key ((sortRows games).get ⟨j, hj⟩).date = ⊤ ∧
    ((sortRows games).get ⟨i, lt_trans hij hj⟩)._seq ≤
      ((sortRows games).get ⟨j, hj⟩)._seq := by
  have hsorted : List.Sorted leKey (sortRows games) :=
    List.sorted_insertionSort leKey games
  have hrel : leKey ((sortRows games).get ⟨i, lt_trans hij hj⟩)
      ((sortRows games).get ⟨j, hj⟩) :=
    hsorted.rel_get_of_lt (Fin.mk_lt_mk.mpr hij)
  have hktop : date_key ((sortRows games).get ⟨i, lt_trans hij hj⟩).date = ⊤ := by
    unfold date_key
    rw [h1, h2]
  rcases hrel with hlt | ⟨heq, hseq⟩
  · rw [hktop] at hlt
    exact absurd hlt not_top_lt
  · exact ⟨List.perm_insertionSort leKey games, hktop, heq.symm.trans hktop, hseq⟩

theorem unparseable_dates_sort_last_witness :
    List.Perm (sortRows [mForfeitWin, mForfeitWin1]) [mForfeitWin, mForfeitWin1] ∧
    date_key ((sortRows [mForfeitWin, mForfeitWin1]).get ⟨0, by decide⟩).date = ⊤ ∧
    date_key ((sortRows [mForfeitWin, mForfeitWin1]).get ⟨1, by decide⟩).date = ⊤ ∧
    ((sortRows [mForfeitWin, mForfeitWin1]).get ⟨0, by decide⟩)._seq ≤
      ((sortRows [mForfeitWin, mForfeitWin1]).get ⟨1, by decide⟩)._seq :=
  unparseable_dates_sort_last [mForfeitWin, mForfeitWin1] 0 1 (by decide) (by decide)
    (by decide) (by decide)

/-! ### Claim C3 -/

/-- Two sorted lists that are permutations of each other agree once the
order relation is antisymmetric on their elements. -/
theorem sorted_perm_eq_of_antisymm {α : Type} {r : α → α → Prop} :
    ∀ (l₁ l₂ : List α), List.Perm l₁ l₂ → List.Sorted r l₁ → List.Sorted r l₂ →
      (∀ a ∈ l₁, ∀ b ∈ l₁, r a b → r b a → a = b) → l₁ = l₂ := by
  intro l₁
  induction l₁ with
  | nil =>
    intro l₂ hp _ _ _
    exact (hp.symm.eq_nil).symm
  | cons a t ih =>
    intro l₂ hp hs₁ hs₂ hanti
    cases l₂ with
    | nil => exact absurd hp.eq_nil (by simp)
    | cons b u =>
      have hab : a = b := by
        have ha2 : a ∈ b :: u := hp.mem_iff.mp (List.mem_cons_self a t)
        have hb1 : b ∈ a :: t := hp.mem_iff.mpr (List.mem_cons_self b u)
        rcases List.mem_cons.mp ha2 with h | ha3
        · exact h
        rcases List.mem_cons.mp hb1 with h | hb3
        · exact h.symm
        have hrab : r a b := (List.sorted_cons.mp hs₁).1 b hb3
        have hrba : r b a := (List.sorted_cons.mp hs₂).1 a ha3
        exact hanti a (List.mem_cons_self a t) b (List.mem_cons_of_mem a hb3) hrab hrba
      subst hab
      have hp' : List.Perm t u := hp.cons_inv
      have ht := ih u hp' (List.sorted_cons.mp hs₁).2 (List.sorted_cons.mp hs₂).2
        (fun x hx y hy hxy hyx =>
          hanti x (List.mem_cons_of_mem a hx) y (List.mem_cons_of_mem a hy) hxy hyx)
      rw [ht]

/-- Mutually related rows have equal sort keys. -/
theorem leKey_antisymm_key (a b : GameRow) (h1 : leKey a b) (h2 : leKey b a) :
    sortKey a = sortKey b := by
  rcases h1 with hlt1 | ⟨heq1, hs1⟩
  · rcases h2 with hlt2 | ⟨heq2, hs2⟩
    · exact absurd (hlt1.trans hlt2) (lt_irrefl _)
    · rw [heq2] at hlt1
      exact absurd hlt1 (lt_irrefl _)
  · rcases h2 with hlt2 | ⟨heq2, hs2⟩
    · rw [heq1] at hlt2
      exact absurd hlt2 (lt_irrefl _)
    · unfold sortKey
      rw [heq1, le_antisymm hs1 hs2]

/-- C3 amended: permuting the match collection before `recompute` never
changes the result, provided no two matches share the sort key
`(date_key, _seq)` (as the input contract's monotone sequence numbers
guarantee). -/
theorem recompute_permutation_invariant_of_distinct_keys (e : EloEngine)
    (baseline : Option (Dict ℝ)) (games games' : List GameRow)
    (hperm : List.Perm games games')
    (hnd : (games.map sortKey).Nodup) :
    recompute e games baseline = recompute e games' baseline := by
  have hsorteq : sortRows games = sortRows games' := by
    apply sorted_perm_eq_of_antisymm (sortRows games) (sortRows games')
    · exact (List.perm_insertionSort leKey games).trans
        (hperm.trans (List.perm_insertionSort leKey games').symm)
    · exact List.sorted_insertionSort leKey games
    · exact List.sorted_insertionSort leKey games'
    · intro a ha b hb hab hba
      have ha' : a ∈ games := (List.perm_insertionSort leKey games).mem_iff.mp ha
      have hb' : b ∈ games := (List.perm_insertionSort leKey games).mem_iff.mp hb
      exact List.inj_on_of_nodup_map hnd ha' hb' (leKey_antisymm_key a b hab hba)
  unfold recompute
  rw [hsorteq]

theorem recompute_permutation_invariant_of_distinct_keys_witness :
    recompute defaultEngine [mForfeitWin, mForfeitWin1] none =
      recompute defaultEngine [mForfeitWin1, mForfeitWin] none :=
  recompute_permutation_invariant_of_distinct_keys defaultEngine none
    [mForfeitWin, mForfeitWin1] [mForfeitWin1, mForfeitWin]
    (List.Perm.swap mForfeitWin1 mForfeitWin []) (by decide)

/-- Evaluation of the colliding-key pair in submission order: the forfeit
win is folded first, so the forfeit-flagged tie is fought at unequal
ratings and moves the ratings again. -/
theorem recompute_collide_order1_eval :
    recompute defaultEngine [mForfeitWin, mForfeitTie] none =
      Except.ok
        ⟨[("A", 1211.25 + 22.5 * (1 / 2 - expected_score 1211.25 1188.75)),
          ("B", 1188.75 - 22.5 * (1 / 2 - expected_score 1211.25 1188.75))],
         [("A", ⟨2, 1, 0, 1⟩), ("B", ⟨2, 0, 1, 1⟩)]⟩ := by
  have h : leKey mForfeitWin mForfeitTie := Or.inr ⟨rfl, le_refl _⟩
  simp [recompute, sortRows, List.insertionSort, List.orderedInsert, h, foldSteps, stepE,
        step, ensure, dmem, dlookup, dset, dget, teamMean, matchMOV, actualScore,
        mov_factor, updWinner, updLoser, Record.zero, mForfeitWin, mForfeitTie,
        defaultEngine]
  norm_num [expected_score]

/-- Evaluation of the colliding-key pair in swapped order: the tie is played
first at equal ratings, where its delta is zero. -/
theorem recompute_collide_order2_eval :
    recompute defaultEngine [mForfeitTie, mForfeitWin] none =
      Except.ok ⟨[("A", 1211.25), ("B", 1188.75)],
        [("A", ⟨2, 1, 0, 1⟩), ("B", ⟨2, 0, 1, 1⟩)]⟩ := by
  have h : leKey mForfeitTie mForfeitWin := Or.inr ⟨rfl, le_refl _⟩
  simp [recompute, sortRows, List.insertionSort, List.orderedInsert, h, foldSteps, stepE,
        step, ensure, dmem, dlookup, dset, dget, teamMean, matchMOV, actualScore,
        expected_score, mov_factor, updWinner, updLoser, Record.zero, mForfeitWin,
        mForfeitTie, defaultEngine]
  norm_num

/-- C3 counterexample: for two matches sharing the same date string and the
same sequence number, the stable internal sort keeps the input order, and
the two orders give player A different final ratings — `recompute` is not
permutation invariant on every match collection. -/
theorem recompute_permutation_counterexample :
    List.Perm [mForfeitWin, mForfeitTie] [mForfeitTie, mForfeitWin] ∧
    ∃ o1 o2, recompute defaultEngine [mForfeitWin, mForfeitTie] none = Except.ok o1 ∧
      recompute defaultEngine [mForfeitTie, mForfeitWin] none = Except.ok o2 ∧
      dlookup o1.ratings "A" ≠ dlookup o2.ratings "A" := by
  refine ⟨List.Perm.swap mForfeitTie mForfeitWin [], _, _,
    recompute_collide_order1_eval, recompute_collide_order2_eval, ?_⟩
  have hqlt : (10 : ℝ) ^ ((1188.75 - 1211.25) / 400 : ℝ) < 1 :=
    Real.rpow_lt_one_of_one_lt_of_neg (by norm_num) (by norm_num)
  have hqpos : (0 : ℝ) < (10 : ℝ) ^ ((1188.75 - 1211.25) / 400 : ℝ) :=
    Real.rpow_pos_of_pos (by norm_num) _
  have hp : 1 / 2 < expected_score 1211.25 1188.75 := by
    unfold expected_score
    rw [div_lt_div_iff₀ (by norm_num) (by linarith)]
    linarith
  intro h
  simp [dlookup] at h
  rcases h with h | h
  · norm_num at h
  · linarith [hp, h]

/-! ### Claim C4 -/

theorem round3_intCast (n : ℤ) : round3 ((n : ℝ)) = (n : ℝ) := by
  simp only [round3, roundHalfEven]
  have h1 : ((n : ℝ)) * 1000 = (((1000 * n : ℤ)) : ℝ) := by push_cast; ring
  rw [h1, Int.floor_intCast]
  rw [if_pos (by norm_num)]
  push_cast
  ring

theorem round3_1200 : round3 (1200 : ℝ) = 1200 := by
  have h := round3_intCast 1200
  norm_num at h
  exact h

/-- C4 counterexample: two players both displayed at rating 1200 receive the
distinct ranks 1 and 2 — the code attaches `range(1, n+1)`, so equal
displayed ratings do not share a dense rank. -/
theorem standings_rank_not_dense_counterexample :
    (make_standings_table [("A", (1200 : ℝ)), ("B", 1200)] []).1.map
        (fun p => (p.1, p.2.Player, p.2.Rating)) =
      [(1, "A", (1200 : ℝ)), (2, "B", 1200)] := by
  have hAB : ("A" : String) ≤ "B" := le_of_lt (String.lt_iff_toList_lt.mpr (by decide))
  have hle : srowLE ⟨"A", (1200 : ℝ), 0, 0, 0, 0⟩ ⟨"B", (1200 : ℝ), 0, 0, 0, 0⟩ :=
    Or.inr ⟨rfl, hAB⟩
  simp [make_standings_table, standingsRows, mkSRow, dget, dlookup, Record.zero,
        List.insertionSort, List.orderedInsert, hle, round3_1200, List.range_succ]

/-- C4 amended: the standings table emits one row per ratings entry (rounded
rating, tallies defaulting to zero), sorted by rating descending then player
ascending, and attaches consecutive ordinal ranks `1..n` in that sorted
order; players with equal displayed rating thus receive distinct consecutive
ranks, not a shared dense rank. -/
theorem standings_sorted_ordinal_ranks (ratings : Dict ℝ) (records : Dict Record) :
    List.Perm ((make_standings_table ratings records).1.map Prod.snd)
      (standingsRows ratings records) ∧
    List.Sorted srowLE ((make_standings_table ratings records).1.map Prod.snd) ∧
    (make_standings_table ratings records).1.map Prod.fst =
      List.range' 1 (standingsRows ratings records).length := by
  have hsnd : (make_standings_table ratings records).1.map Prod.snd =
      (standingsRows ratings records).insertionSort srowLE := by
    simp only [make_standings_table]
    rw [List.map_map]
    have hc : (Prod.snd ∘ fun p : ℕ × SRow => (p.1 + 1, p.2)) =
        (Prod.snd : ℕ × SRow → SRow) := rfl
    rw [hc]
    exact List.map_snd_zip _ _ (by simp)
  refine ⟨?_, ?_, ?_⟩
  · rw [hsnd]
    exact List.perm_insertionSort srowLE _
  · rw [hsnd]
    exact List.sorted_insertionSort srowLE _
  · simp only [make_standings_table]
    rw [List.map_map]
    have hc : (Prod.fst ∘ fun p : ℕ × SRow => (p.1 + 1, p.2)) =
        ((fun x => x + 1) ∘ (Prod.fst : ℕ × SRow → ℕ)) := rfl
    rw [hc, ← List.map_map, List.map_fst_zip _ _ (by simp)]
    rw [List.range'_eq_map_range]
    have ha : (fun x : ℕ => x + 1) = fun x => 1 + x := funext fun x => Nat.add_comm x 1
    rw [ha, List.length_insertionSort]
